import Mathlib

/-!
A shallow embedding of the DisMAL core (OvertoneDistribution, the
SpectralInterference dissonance model family, the HearingRange preprocessor and
the DissonanceCalc orchestrator) together with theorems settling the spec
claims.  C++ float arithmetic is modelled exactly over the rationals; calls
into libm (std::exp, std::pow) are modelled by abstract function parameters, so
every definition stays computable.  Out-of-range JUCE array accesses (undefined
behaviour in the source) are modelled as no-ops / default reads; every concrete
input used in a theorem keeps indices in range unless the claim is about the
out-of-range behaviour itself.
-/

namespace DisMAL

/-- Model of juce::Range<T> (a half-open interval).  The source field named
end is called stop here (end is a Lean keyword).  The default constructor
gives the empty range [0, 0). -/
structure RangeQ where
  start : ℚ := 0
  stop : ℚ := 0
  deriving DecidableEq

/-- juce::Range::contains: start <= position < end (half-open). -/
def RangeQ.containsQ (r : RangeQ) (position : ℚ) : Prop :=
  r.start ≤ position ∧ position < r.stop

instance (r : RangeQ) (x : ℚ) : Decidable (r.containsQ x) := by
  unfold RangeQ.containsQ
  infer_instance

/-- juce::Range::isEmpty: start == end. -/
def RangeQ.isEmptyQ (r : RangeQ) : Prop :=
  r.start = r.stop

instance (r : RangeQ) : Decidable (r.isEmptyQ) := by
  unfold RangeQ.isEmptyQ
  infer_instance

/-- juce::Range::setStart: changes start, pushing end up if it would become
smaller than the new start. -/
def RangeQ.setStart (r : RangeQ) (newStart : ℚ) : RangeQ :=
  { start := newStart, stop := if r.stop < newStart then newStart else r.stop }

/-- juce::Range::setEnd: changes end, pulling start down if it would become
greater than the new end. -/
def RangeQ.setEnd (r : RangeQ) (newEnd : ℚ) : RangeQ :=
  { start := if newEnd < r.start then newEnd else r.start, stop := newEnd }

/-- juce::Range::withStartAndLength: builds the range
[startValue, startValue + length). -/
def RangeQ.withStartAndLength (startValue length : ℚ) : RangeQ :=
  { start := startValue, stop := startValue + length }

/-- Source class Partial (OvertoneDistribution.h): frequency, amplitude, mute
flag and accumulated dissonance of one sinusoidal partial. -/
structure PartialData where
  freq : ℚ := 0
  amp : ℚ := 0
  muted : Bool := false
  dissonance : ℚ := 0
  deriving DecidableEq

instance : Inhabited PartialData := ⟨{}⟩

/-- Source constructor Partial(newFreq, newAmp): non-positive inputs are
clamped to 0; muted = false, dissonance = 0. -/
def PartialData.make (newFreq newAmp : ℚ) : PartialData :=
  { freq := if 0 < newFreq then newFreq else 0,
    amp := if 0 < newAmp then newAmp else 0,
    muted := false,
    dissonance := 0 }

/-- Source Partial copy constructor and Partial::operator= (identical bodies):
freq, amp and muted are copied, dissonance is reset to 0. -/
def PartialData.copy (other : PartialData) : PartialData :=
  { freq := other.freq, amp := other.amp, muted := other.muted, dissonance := 0 }

/-- Source comparison operator< used by Array<Partial>::sort(): orders by
frequency ratio. -/
def PartialData.ltFreq (first second : PartialData) : Prop :=
  first.freq < second.freq

/-- Source class OvertoneDistribution: named ordered set of partials, one
fundamental, the minimum-interval setting and a mute flag.  The field
defaults are the source default constructor (minInterval = 1, muted = false,
name untitled, empty fundamental). -/
structure OvertoneDistribution where
  name : String := "untitled"
  partials : List PartialData := []
  fundamental : PartialData := {}
  minInterval : ℚ := 1
  muted : Bool := false
  deriving DecidableEq

instance : Inhabited OvertoneDistribution := ⟨{}⟩

namespace OvertoneDistribution

/-- Source OvertoneDistribution copy constructor and operator= (identical
bodies): partials and fundamental are copied through the Partial copy
operations (which reset accumulated dissonance); name, minInterval and the
mute flag are copied. -/
def copy (other : OvertoneDistribution) : OvertoneDistribution :=
  { name := other.name,
    partials := other.partials.map PartialData.copy,
    fundamental := other.fundamental.copy,
    minInterval := other.minInterval,
    muted := other.muted }

/-- Source numPartials(). -/
def numPartials (d : OvertoneDistribution) : ℕ :=
  d.partials.length

/-- Source getFreqRatio(partialNum). -/
def getFreqRatio (d : OvertoneDistribution) (partialNum : ℕ) : ℚ :=
  (d.partials.getD partialNum default).freq

/-- Source getAmpRatio(partialNum). -/
def getAmpRatio (d : OvertoneDistribution) (partialNum : ℕ) : ℚ :=
  (d.partials.getD partialNum default).amp

/-- Source getRealFreq(partialNum): ratio times the fundamental frequency. -/
def getRealFreq (d : OvertoneDistribution) (partialNum : ℕ) : ℚ :=
  (d.partials.getD partialNum default).freq * d.fundamental.freq

/-- Source getRealAmp(partialNum): ratio times the fundamental amplitude. -/
def getRealAmp (d : OvertoneDistribution) (partialNum : ℕ) : ℚ :=
  (d.partials.getD partialNum default).amp * d.fundamental.amp

/-- Source getFundamentalFreq(). -/
def getFundamentalFreq (d : OvertoneDistribution) : ℚ :=
  d.fundamental.freq

/-- Source getFundamentalAmp(). -/
def getFundamentalAmp (d : OvertoneDistribution) : ℚ :=
  d.fundamental.amp

/-- Source fundamentalIsMuted(). -/
def fundamentalIsMuted (d : OvertoneDistribution) : Bool :=
  d.fundamental.muted

/-- Source isMuted(). -/
def isMuted (d : OvertoneDistribution) : Bool :=
  d.muted

/-- Source partialIsMuted(partialNum). -/
def partialIsMuted (d : OvertoneDistribution) (partialNum : ℕ) : Bool :=
  (d.partials.getD partialNum default).muted

/-- Source alreadyContains(freqToCheck): true when the candidate equals the
tonic ratio 1 or exactly duplicates an existing partial ratio. -/
def alreadyContains (d : OvertoneDistribution) (freqToCheck : ℚ) : Prop :=
  freqToCheck = 1 ∨ ∃ p ∈ d.partials, freqToCheck = p.freq

instance (d : OvertoneDistribution) (x : ℚ) : Decidable (d.alreadyContains x) := by
  unfold alreadyContains
  infer_instance

/-- Source tooCloseToOther(freqToCheck): when minInterval > 1, builds the
juce::Range [1/minInterval, minInterval) through setStart/setEnd and tests it
against the candidate (ratio to the tonic) and against the candidate divided
by each existing partial ratio.  juce::Range::contains is half-open. -/
def tooCloseToOther (d : OvertoneDistribution) (freqToCheck : ℚ) : Prop :=
  1 < d.minInterval ∧
    (((RangeQ.setEnd (RangeQ.setStart {} (1 / d.minInterval)) d.minInterval).containsQ
        freqToCheck) ∨
      ∃ p ∈ d.partials,
        (RangeQ.setEnd (RangeQ.setStart {} (1 / d.minInterval)) d.minInterval).containsQ
          (freqToCheck / p.freq))

instance (d : OvertoneDistribution) (x : ℚ) : Decidable (d.tooCloseToOther x) := by
  unfold tooCloseToOther
  infer_instance

/-- Source addPartial(FreqRatio, AmpRatio): rejected (no state change) when
the ratio already occurs or is too close to another; otherwise the new partial
is added and the array re-sorted ascending by frequency ratio.  The jasserts
on positivity in the source are assertions only and do not guard the
mutation.  (Renamed from addPartial.) -/
def addPartialData (d : OvertoneDistribution) (FreqRatio AmpRatio : ℚ) :
    OvertoneDistribution :=
  if ¬ d.alreadyContains FreqRatio ∧ ¬ d.tooCloseToOther FreqRatio then
    { d with
      partials :=
        List.insertionSort (fun a b => a.freq ≤ b.freq)
          (d.partials ++ [PartialData.make FreqRatio AmpRatio]) }
  else d

/-- Source setFreqRatio(partialNum, newFreqRatio): same checks as addPartial;
on acceptance the indexed partial's ratio is overwritten and the array
re-sorted. -/
def setFreqRatio (d : OvertoneDistribution) (partialNum : ℕ) (newFreqRatio : ℚ) :
    OvertoneDistribution :=
  if ¬ d.alreadyContains newFreqRatio ∧ ¬ d.tooCloseToOther newFreqRatio then
    { d with
      partials :=
        List.insertionSort (fun a b => a.freq ≤ b.freq)
          (d.partials.set partialNum
            { d.partials.getD partialNum default with freq := newFreqRatio }) }
  else d

/-- Source setAmpRatio(partialNum, newAmpRatio): the jassert on positivity is
an assertion only; the amplitude is assigned unconditionally. -/
def setAmpRatio (d : OvertoneDistribution) (partialNum : ℕ) (newAmpRatio : ℚ) :
    OvertoneDistribution :=
  { d with
    partials :=
      d.partials.set partialNum
        { d.partials.getD partialNum default with amp := newAmpRatio } }

/-- Source setFundamental(fundamentalFreq, fundamentalAmp): assigns both
fields unconditionally (the positivity jasserts are assertions only). -/
def setFundamental (d : OvertoneDistribution) (fundamentalFreq fundamentalAmp : ℚ) :
    OvertoneDistribution :=
  { d with
    fundamental :=
      { d.fundamental with freq := fundamentalFreq, amp := fundamentalAmp } }

/-- Source setFundamentalFreq(newFundamentalFreq): unconditional assignment. -/
def setFundamentalFreq (d : OvertoneDistribution) (newFundamentalFreq : ℚ) :
    OvertoneDistribution :=
  { d with fundamental := { d.fundamental with freq := newFundamentalFreq } }

/-- Source setFundamentalAmp(newFundamentalAmp): unconditional assignment. -/
def setFundamentalAmp (d : OvertoneDistribution) (newFundamentalAmp : ℚ) :
    OvertoneDistribution :=
  { d with fundamental := { d.fundamental with amp := newFundamentalAmp } }

/-- Source muteFundamental(mute). -/
def muteFundamental (d : OvertoneDistribution) (mute : Bool) : OvertoneDistribution :=
  { d with fundamental := { d.fundamental with muted := mute } }

/-- Source mute(mute). -/
def muteDistribution (d : OvertoneDistribution) (mute : Bool) : OvertoneDistribution :=
  { d with muted := mute }

/-- Source mutePartial(partialNum, mute).  (Renamed from mutePartial.) -/
def mutePartialAt (d : OvertoneDistribution) (partialNum : ℕ) (mute : Bool) :
    OvertoneDistribution :=
  { d with
    partials :=
      d.partials.set partialNum
        { d.partials.getD partialNum default with muted := mute } }

/-- Source addPartialDissonance(partialNum, dissonanceToAdd). -/
def addPartialDissonance (d : OvertoneDistribution) (partialNum : ℕ)
    (dissonanceToAdd : ℚ) : OvertoneDistribution :=
  { d with
    partials :=
      d.partials.set partialNum
        (let pt := d.partials.getD partialNum default
         { pt with dissonance := pt.dissonance + dissonanceToAdd }) }

/-- Source addDissonanceToFundamental(dissonanceToAdd). -/
def addDissonanceToFundamental (d : OvertoneDistribution) (dissonanceToAdd : ℚ) :
    OvertoneDistribution :=
  { d with
    fundamental :=
      { d.fundamental with dissonance := d.fundamental.dissonance + dissonanceToAdd } }

/-- Source getPartialDissonance(partialNum). -/
def getPartialDissonance (d : OvertoneDistribution) (partialNum : ℕ) : ℚ :=
  (d.partials.getD partialNum default).dissonance

/-- Source getDissonanceOfFundamental(). -/
def getDissonanceOfFundamental (d : OvertoneDistribution) : ℚ :=
  d.fundamental.dissonance

/-- Source getTotalDissonance(): fundamental plus all partials. -/
def getTotalDissonance (d : OvertoneDistribution) : ℚ :=
  d.fundamental.dissonance + (d.partials.map PartialData.dissonance).sum

/-- Source clearPartialDissonances(): zeroes the fundamental's and every
partial's accumulated dissonance. -/
def clearPartialDissonances (d : OvertoneDistribution) : OvertoneDistribution :=
  { d with
    fundamental := { d.fundamental with dissonance := 0 },
    partials := d.partials.map fun pt => { pt with dissonance := 0 } }

end OvertoneDistribution

/-!  Claim C3: validation of candidate frequency ratios.  -/

/-- The rejection condition of addPartial/setFreqRatio as realized by the
code: the candidate equals 1, exactly duplicates an existing partial ratio,
or (only when minInterval > 1) the ratio of the candidate to the tonic ratio
1, or to an existing partial ratio, lies in the half-open exclusion band
[1/minInterval, minInterval) — inclusive at the lower end, exclusive at
minInterval. -/
def rejectsRatio (d : OvertoneDistribution) (r : ℚ) : Prop :=
  r = 1 ∨ (∃ p ∈ d.partials, r = p.freq) ∨
    (1 < d.minInterval ∧
      ((1 / d.minInterval ≤ r / 1 ∧ r / 1 < d.minInterval) ∨
        ∃ p ∈ d.partials, 1 / d.minInterval ≤ r / p.freq ∧ r / p.freq < d.minInterval))

instance (d : OvertoneDistribution) (r : ℚ) : Decidable (rejectsRatio d r) := by
  unfold rejectsRatio
  infer_instance

lemma band_range_eq (m : ℚ) (hm : 1 < m) :
    RangeQ.setEnd (RangeQ.setStart {} (1 / m)) m = { start := 1 / m, stop := m } := by
  have hm0 : (0 : ℚ) < m := lt_trans one_pos hm
  have h0 : (0 : ℚ) < 1 / m := div_pos one_pos hm0
  have h1 : 1 / m < m := by
    calc 1 / m < 1 := by
          rw [div_lt_one hm0]
          exact hm
      _ < m := hm
  have hA : RangeQ.setStart {} (1 / m) = { start := 1 / m, stop := 1 / m } := by
    unfold RangeQ.setStart
    rw [if_pos]
    exact h0
  rw [hA]
  unfold RangeQ.setEnd
  rw [if_neg (not_lt.mpr h1.le)]

lemma tooCloseToOther_iff (d : OvertoneDistribution) (r : ℚ) :
    d.tooCloseToOther r ↔
      (1 < d.minInterval ∧
        ((1 / d.minInterval ≤ r ∧ r < d.minInterval) ∨
          ∃ p ∈ d.partials, 1 / d.minInterval ≤ r / p.freq ∧ r / p.freq < d.minInterval)) := by
  unfold OvertoneDistribution.tooCloseToOther
  constructor
  · rintro ⟨hm, h⟩
    rw [band_range_eq d.minInterval hm] at h
    exact ⟨hm, h⟩
  · rintro ⟨hm, h⟩
    refine ⟨hm, ?_⟩
    rw [band_range_eq d.minInterval hm]
    exact h

lemma rejectsRatio_iff (d : OvertoneDistribution) (r : ℚ) :
    rejectsRatio d r ↔ (d.alreadyContains r ∨ d.tooCloseToOther r) := by
  unfold rejectsRatio OvertoneDistribution.alreadyContains
  rw [tooCloseToOther_iff]
  simp only [div_one]
  constructor
  · rintro (h1 | h2 | h3)
    · exact Or.inl (Or.inl h1)
    · exact Or.inl (Or.inr h2)
    · exact Or.inr h3
  · rintro ((h1 | h2) | h3)
    · exact Or.inl h1
    · exact Or.inr (Or.inl h2)
    · exact Or.inr (Or.inr h3)

/-- C3 (amended): addPartial(r, a) and setFreqRatio(partialNum, r) leave the
partial set unchanged exactly when r equals 1, duplicates an existing ratio,
or (when minInterval > 1) the ratio of r to the tonic ratio 1 or to an
existing partial's ratio lies in the half-open band
[1/minInterval, minInterval); otherwise the mutation succeeds and the partial
set changes. -/
theorem addPartial_setFreqRatio_reject_iff (d : OvertoneDistribution) (r a : ℚ)
    (pn : ℕ) (hpn : pn < d.numPartials) :
    ((d.addPartialData r a).partials = d.partials ↔ rejectsRatio d r) ∧
    ((d.setFreqRatio pn r).partials = d.partials ↔ rejectsRatio d r) := by
  rw [rejectsRatio_iff]
  unfold OvertoneDistribution.addPartialData OvertoneDistribution.setFreqRatio
  by_cases hrej : d.alreadyContains r ∨ d.tooCloseToOther r
  · have hcond : ¬ (¬ d.alreadyContains r ∧ ¬ d.tooCloseToOther r) := by tauto
    rw [if_neg hcond, if_neg hcond]
    exact ⟨iff_of_true rfl hrej, iff_of_true rfl hrej⟩
  · push_neg at hrej
    obtain ⟨ha, ht⟩ := hrej
    rw [if_pos ⟨ha, ht⟩, if_pos ⟨ha, ht⟩]
    have hnor : ¬ (d.alreadyContains r ∨ d.tooCloseToOther r) := not_or.mpr ⟨ha, ht⟩
    constructor
    · apply iff_of_false _ hnor
      intro heq
      have hlen := congrArg List.length heq
      rw [List.length_insertionSort, List.length_append] at hlen
      simp at hlen
    · apply iff_of_false _ hnor
      intro heq
      replace heq : List.insertionSort (fun a b => a.freq ≤ b.freq)
          (d.partials.set pn { d.partials.getD pn default with freq := r }) =
          d.partials := heq
      simp only [OvertoneDistribution.alreadyContains] at ha
      push_neg at ha
      have hlt2 : pn < (d.partials.set pn
          { d.partials.getD pn default with freq := r }).length := by
        rw [List.length_set]
        exact hpn
      have h2 := List.getElem_mem hlt2
      rw [List.getElem_set_self hlt2] at h2
      have hmem2 : ({ d.partials.getD pn default with freq := r } : PartialData) ∈
          d.partials := by
        have h3 := (List.mem_insertionSort (fun a b => a.freq ≤ b.freq)).mpr h2
        rw [heq] at h3
        exact h3
      exact ha.2 _ hmem2 rfl

/-- Concrete distribution for the C3 counterexample and witness: minimum
interval 2, no partials yet. -/
def c3Dist : OvertoneDistribution :=
  { minInterval := 2 }

/-- C3 counterexample: with minInterval = 2, the candidate ratio 2 has
ratio-of-ratios 2 to the tonic, which lies in the closed band [1/2, 2]
claimed by the spec, yet addPartial(2, 1) succeeds and changes the partial
set (the band is half-open in the code: 2 is accepted at the upper edge). -/
theorem addPartial_accepts_upper_band_edge :
    (1 / c3Dist.minInterval ≤ (2 : ℚ) / 1 ∧ (2 : ℚ) / 1 ≤ c3Dist.minInterval) ∧
    (c3Dist.addPartialData 2 1).partials ≠ c3Dist.partials := by
  refine ⟨by norm_num [c3Dist], ?_⟩
  simp only [c3Dist, OvertoneDistribution.addPartialData,
    OvertoneDistribution.alreadyContains, OvertoneDistribution.tooCloseToOther,
    RangeQ.setStart, RangeQ.setEnd, RangeQ.containsQ, PartialData.make,
    List.insertionSort, List.orderedInsert]
  norm_num

/-- Concrete distribution for the C3 witness: minimum interval 2 and one
existing partial at ratio 3. -/
def c3DistB : OvertoneDistribution :=
  { minInterval := 2, partials := [{ freq := 3, amp := 1 }] }

/-- Witness for the C3 theorem at a concrete input. -/
theorem addPartial_setFreqRatio_reject_iff_witness :
    ((c3DistB.addPartialData 5 1).partials = c3DistB.partials ↔
      rejectsRatio c3DistB 5) ∧
    ((c3DistB.setFreqRatio 0 5).partials = c3DistB.partials ↔
      rejectsRatio c3DistB 5) :=
  addPartial_setFreqRatio_reject_iff c3DistB 5 1 0 (by decide)

/-!  Claim C4: validation failures and state changes.  -/

/-- Concrete distribution for the C4 failing input: one partial (ratio 2,
amplitude ratio 1), fundamental 100 Hz at amplitude 1. -/
def c4Dist : OvertoneDistribution :=
  { partials := [{ freq := 2, amp := 1 }],
    fundamental := { freq := 100, amp := 1 } }

/-- C4 failing input: the positivity checks in setAmpRatio, setFundamental,
setFundamentalFreq and setFundamentalAmp are jasserts only (disabled outside
debug builds); the assignments happen unconditionally, so a non-positive
input mutates the object, contradicting the claim that validation failures
leave state unchanged. -/
theorem nonpositive_setters_mutate_state :
    ((-1 : ℚ) ≤ 0 ∧
      (c4Dist.setAmpRatio 0 (-1)).getAmpRatio 0 = -1 ∧ c4Dist.getAmpRatio 0 = 1) ∧
    ((0 : ℚ) ≤ 0 ∧
      (c4Dist.setFundamentalFreq 0).getFundamentalFreq = 0 ∧
      c4Dist.getFundamentalFreq = 100) ∧
    ((-2 : ℚ) ≤ 0 ∧
      (c4Dist.setFundamentalAmp (-2)).getFundamentalAmp = -2 ∧
      c4Dist.getFundamentalAmp = 1) ∧
    ((c4Dist.setFundamental 0 (-3)).fundamental.freq = 0 ∧
      (c4Dist.setFundamental 0 (-3)).fundamental.amp = -3) := by
  refine ⟨⟨by norm_num, rfl, rfl⟩, ⟨by norm_num, rfl, rfl⟩,
    ⟨by norm_num, rfl, rfl⟩, rfl, rfl⟩

/-!  Claim C8: copy semantics of OvertoneDistribution.  -/

lemma getD_map_copy (l : List PartialData) (i : ℕ) :
    (l.map PartialData.copy).getD i default = (l.getD i default).copy := by
  simp only [List.getD_eq_getElem?_getD, List.getElem?_map]
  cases l[i]? <;> rfl

/-- C8 (amended): copy construction / copy assignment of an
OvertoneDistribution preserves the name, minInterval, the distribution mute
flag, and, for the fundamental and every partial, its frequency, amplitude
and mute flag — but resets every accumulated-dissonance scalar to zero
(Partial's copy operations zero the dissonance field). -/
theorem copy_preserves_shape_resets_dissonance (d : OvertoneDistribution) (i : ℕ) :
    d.copy.name = d.name ∧ d.copy.minInterval = d.minInterval ∧
    d.copy.muted = d.muted ∧
    d.copy.fundamental.freq = d.fundamental.freq ∧
    d.copy.fundamental.amp = d.fundamental.amp ∧
    d.copy.fundamental.muted = d.fundamental.muted ∧
    d.copy.fundamental.dissonance = 0 ∧
    d.copy.partials.length = d.partials.length ∧
    (d.copy.partials.getD i default).freq = (d.partials.getD i default).freq ∧
    (d.copy.partials.getD i default).amp = (d.partials.getD i default).amp ∧
    (d.copy.partials.getD i default).muted = (d.partials.getD i default).muted ∧
    (d.copy.partials.getD i default).dissonance = 0 := by
  have hmap : d.copy.partials = d.partials.map PartialData.copy := rfl
  refine ⟨rfl, rfl, rfl, rfl, rfl, rfl, rfl, ?_, ?_, ?_, ?_, ?_⟩
  · rw [hmap, List.length_map]
  · rw [hmap, getD_map_copy]
    rfl
  · rw [hmap, getD_map_copy]
    rfl
  · rw [hmap, getD_map_copy]
    rfl
  · rw [hmap, getD_map_copy]
    rfl

/-- Concrete distribution for the C8 counterexample: non-zero accumulated
dissonance on both the fundamental and the partial. -/
def c8Dist : OvertoneDistribution :=
  { partials := [{ freq := 2, amp := 1, dissonance := 3 }],
    fundamental := { freq := 100, amp := 1, dissonance := 5 } }

/-- C8 counterexample: the copy does not equal the source in the
accumulated-dissonance scalars — they are reset to zero. -/
theorem copy_drops_accumulated_dissonance :
    c8Dist.fundamental.dissonance = 5 ∧ c8Dist.copy.fundamental.dissonance = 0 ∧
    (c8Dist.partials.getD 0 default).dissonance = 3 ∧
    (c8Dist.copy.partials.getD 0 default).dissonance = 0 :=
  ⟨rfl, rfl, rfl, rfl⟩

/-!
Claim C9: the elementary roughness formulas (DissonanceModel.cpp).
std::exp and std::powf are modelled by abstract functions over ℚ; the
symmetry claim is proved for every choice of those functions, of which the
real exponential / power are instances.  Both models share the same fitted
constants.
-/

namespace SetharesModel

def maxDiss : ℚ := 0.24

def plcInterp1 : ℚ := 0.0207

def plcInterp2 : ℚ := 18.96

def plCurveRate1 : ℚ := -3.51

def plCurveRate2 : ℚ := -5.75

def plcFit1 : ℚ := 5

def plcFit2 : ℚ := -5

/-- Source SetharesModel::calculateRoughness, with std::exp abstracted. -/
def calculateRoughness (exp : ℚ → ℚ)
    (firstFreq firstAmp secondFreq secondAmp : ℚ) : ℚ :=
  let curveInterp := maxDiss / (plcInterp1 * min firstFreq secondFreq + plcInterp2)
  let freqDiff := |firstFreq - secondFreq|
  min firstAmp secondAmp *
    (plcFit1 * exp (plCurveRate1 * curveInterp * freqDiff) +
      plcFit2 * exp (plCurveRate2 * curveInterp * freqDiff))

end SetharesModel

namespace VassilakisModel

/-- Source VassilakisModel::calculateRoughness, with std::exp and std::powf
abstracted.  The constants are the same as the Sethares model's. -/
def calculateRoughness (exp : ℚ → ℚ) (powf : ℚ → ℚ → ℚ)
    (firstFreq firstAmp secondFreq secondAmp : ℚ) : ℚ :=
  let curveInterp := SetharesModel.maxDiss /
    (SetharesModel.plcInterp1 * min firstFreq secondFreq + SetharesModel.plcInterp2)
  let freqDiff := |firstFreq - secondFreq|
  let x := powf (firstAmp * secondAmp) 0.1
  let y := 0.5 * powf (2 * min firstAmp secondAmp / (firstAmp + secondAmp)) 3.11
  let z := SetharesModel.plcFit1 * exp (SetharesModel.plCurveRate1 * curveInterp * freqDiff) +
    SetharesModel.plcFit2 * exp (SetharesModel.plCurveRate2 * curveInterp * freqDiff)
  x * y * z

end VassilakisModel

/-- C9: both elementary roughness formulas are symmetric in their two
(frequency, amplitude) argument pairs, for every interpretation of the
transcendental helpers and all inputs. -/
theorem roughness_symmetric (exp : ℚ → ℚ) (powf : ℚ → ℚ → ℚ)
    (f1 a1 f2 a2 : ℚ) :
    SetharesModel.calculateRoughness exp f1 a1 f2 a2 =
      SetharesModel.calculateRoughness exp f2 a2 f1 a1 ∧
    VassilakisModel.calculateRoughness exp powf f1 a1 f2 a2 =
      VassilakisModel.calculateRoughness exp powf f2 a2 f1 a1 := by
  unfold SetharesModel.calculateRoughness VassilakisModel.calculateRoughness
  constructor
  · rw [min_comm f1 f2, min_comm a1 a2, abs_sub_comm]
  · rw [min_comm f1 f2, min_comm a1 a2, abs_sub_comm, mul_comm a1 a2, add_comm a1 a2]

/-!
Claim C7: the hearing-range preprocessor (Preprocessor.cpp).
-/

/-- Source HearingRangePreprocessor: default constructor sets the band to
[20, 20000) through setStart/setEnd on a default juce::Range. -/
structure HearingRangePreprocessor where
  hearingRange : RangeQ := RangeQ.setEnd (RangeQ.setStart {} 20) 20000
  name : String := "Hearing Range"
  description : String :=
    "Applies a bandpass filter to remove frequencies that lie outside the human hearing range."
  deriving DecidableEq

/-- Source HearingRangePreprocessor::setHearingRange: it calls the const
juce::Range::withStartAndLength — which returns a new range — and discards
the result, so the stored band never changes (a no-op on the state). -/
def HearingRangePreprocessor.setHearingRange (p : HearingRangePreprocessor)
    (lowerLimit upperLimit : ℚ) : HearingRangePreprocessor :=
  let _ := RangeQ.withStartAndLength lowerLimit (upperLimit - lowerLimit)
  p

/-- Source HearingRangePreprocessor::process: mutes (never deletes) each
fundamental whose frequency and each partial whose real frequency is not
contained in the stored band. -/
def HearingRangePreprocessor.process (p : HearingRangePreprocessor)
    (distributions : List OvertoneDistribution) : List OvertoneDistribution :=
  distributions.map fun dist =>
    let dist2 :=
      if ¬ p.hearingRange.containsQ dist.getFundamentalFreq then
        dist.muteFundamental true
      else dist
    (List.range dist2.numPartials).foldl
      (fun d pIdx =>
        if ¬ p.hearingRange.containsQ (d.getRealFreq pIdx) then
          d.mutePartialAt pIdx true
        else d)
      dist2

/-- C7 failing input: setHearingRange(100, 1000) leaves the configured band
at the default [20, 20000) instead of setting [100, 1000]; the setter
discards the range it computes, for every preprocessor state and input. -/
theorem setHearingRange_discards_new_range :
    (∀ (p : HearingRangePreprocessor) (lowerLimit upperLimit : ℚ),
      (p.setHearingRange lowerLimit upperLimit).hearingRange = p.hearingRange) ∧
    (HearingRangePreprocessor.setHearingRange {} 100 1000).hearingRange =
      { start := 20, stop := 20000 } ∧
    ({ start := (20 : ℚ), stop := (20000 : ℚ) } : RangeQ) ≠
      { start := 100, stop := 1000 } :=
  ⟨fun _ _ _ => rfl, rfl, by simp⟩

/-!
The shared interference-sum algorithm
(SpectralInterferenceModel::calculateDissonance, DissonanceModel.cpp 44-156).
The per-model elementary roughness formula is a parameter R; the imperative
loops become left folds over index ranges carrying the running total and the
mutating distribution array (the accumulate branch writes dissonance fields
in place).  Loop reads go through the evolving state, as in the source.
-/

/-- The elementary roughness callback type: frequency, amplitude, frequency,
amplitude to roughness. -/
abbrev Roughness : Type := ℚ → ℚ → ℚ → ℚ → ℚ

/-- distributions[i] (out of range reads give the default distribution; the
loops below only produce in-range distribution indices). -/
def dAt (ds : List OvertoneDistribution) (i : ℕ) : OvertoneDistribution :=
  ds.getD i default

/-- In-place update of distributions[i]. -/
def updAt (ds : List OvertoneDistribution) (i : ℕ)
    (f : OvertoneDistribution → OvertoneDistribution) : List OvertoneDistribution :=
  ds.set i (f (dAt ds i))

/-- The ascending index list i, i+1, ..., hi-1 of a C for loop. -/
def upFrom (lo hi : ℕ) : List ℕ :=
  List.range' lo (hi - lo)

/-- The source guard pattern "!fundamentalIsMuted() && !isMuted()". -/
def fundOnD (d : OvertoneDistribution) : Prop :=
  ¬ d.fundamentalIsMuted ∧ ¬ d.isMuted

instance (d : OvertoneDistribution) : Decidable (fundOnD d) := by
  unfold fundOnD
  infer_instance

/-- Body of the inner loop over secondFundamental
(DissonanceModel.cpp 59-78): accumulate the roughness of two unmuted
fundamentals and, when accumulating, add half to each fundamental's total. -/
def fundPairInner (R : Roughness) (b : Bool) (firstF : ℕ)
    (t : ℚ × List OvertoneDistribution) (secondF : ℕ) :
    ℚ × List OvertoneDistribution :=
  if fundOnD (dAt t.2 secondF) then
    let tempDiss := R (dAt t.2 firstF).getFundamentalFreq
      (dAt t.2 firstF).getFundamentalAmp
      (dAt t.2 secondF).getFundamentalFreq
      (dAt t.2 secondF).getFundamentalAmp
    (t.1 + tempDiss,
      if b then
        updAt
          (updAt t.2 firstF fun d => d.addDissonanceToFundamental (tempDiss / 2))
          secondF fun d => d.addDissonanceToFundamental (tempDiss / 2)
      else t.2)
  else t

/-- Body of the loop over firstFundamental (DissonanceModel.cpp 51-81). -/
def fundPairOuter (R : Roughness) (b : Bool) (n : ℕ)
    (s : ℚ × List OvertoneDistribution) (firstF : ℕ) :
    ℚ × List OvertoneDistribution :=
  if fundOnD (dAt s.2 firstF) then
    (upFrom (firstF + 1) n).foldl (fundPairInner R b firstF) s
  else s

/-- Body of the loop pairing a partial with every unmuted fundamental
(DissonanceModel.cpp 96-116).  The source passes firstDistribution — not
firstPartial — as the partial index of the accumulate write on line 112; the
embedding reproduces that. -/
def partialFundInner (R : Roughness) (b : Bool) (firstD firstP : ℕ)
    (u : ℚ × List OvertoneDistribution) (fundP : ℕ) :
    ℚ × List OvertoneDistribution :=
  if fundOnD (dAt u.2 fundP) then
    let tempDiss := R ((dAt u.2 firstD).getRealFreq firstP)
      ((dAt u.2 firstD).getRealAmp firstP)
      (dAt u.2 fundP).getFundamentalFreq
      (dAt u.2 fundP).getFundamentalAmp
    (u.1 + tempDiss,
      if b then
        updAt
          (updAt u.2 firstD fun d => d.addPartialDissonance firstD (tempDiss / 2))
          fundP fun d => d.addDissonanceToFundamental (tempDiss / 2)
      else u.2)
  else u

/-- Body of the innermost loop over secondPartial
(DissonanceModel.cpp 128-148). -/
def partialPairInner (R : Roughness) (b : Bool) (firstD firstP secondD : ℕ)
    (w : ℚ × List OvertoneDistribution) (secondP : ℕ) :
    ℚ × List OvertoneDistribution :=
  if ¬ (dAt w.2 secondD).isMuted ∧ ¬ (dAt w.2 secondD).partialIsMuted secondP then
    let tempDiss := R ((dAt w.2 firstD).getRealFreq firstP)
      ((dAt w.2 firstD).getRealAmp firstP)
      ((dAt w.2 secondD).getRealFreq secondP)
      ((dAt w.2 secondD).getRealAmp secondP)
    (w.1 + tempDiss,
      if b then
        updAt
          (updAt w.2 firstD fun d => d.addPartialDissonance firstP (tempDiss / 2))
          secondD fun d => d.addPartialDissonance secondP (tempDiss / 2)
      else w.2)
  else w

/-- Body of the loop over secondDistribution (DissonanceModel.cpp 119-149):
within the same distribution the pairing starts at firstPartial + 1. -/
def partialPairMid (R : Roughness) (b : Bool) (firstD firstP : ℕ)
    (v : ℚ × List OvertoneDistribution) (secondD : ℕ) :
    ℚ × List OvertoneDistribution :=
  let startingPartial := if firstD = secondD then firstP + 1 else 0
  (upFrom startingPartial (dAt v.2 secondD).numPartials).foldl
    (partialPairInner R b firstD firstP secondD) v

/-- Body of the loop over firstPartial (DissonanceModel.cpp 89-151): the
partial-versus-fundamental loop runs first, then the partial-versus-partial
loops. -/
def partialLoop (R : Roughness) (b : Bool) (n firstD : ℕ)
    (t : ℚ × List OvertoneDistribution) (firstP : ℕ) :
    ℚ × List OvertoneDistribution :=
  if ¬ (dAt t.2 firstD).partialIsMuted firstP then
    (upFrom firstD n).foldl (partialPairMid R b firstD firstP)
      ((List.range n).foldl (partialFundInner R b firstD firstP) t)
  else t

/-- Body of the loop over firstDistribution (DissonanceModel.cpp 83-153). -/
def distLoop (R : Roughness) (b : Bool) (n : ℕ)
    (s : ℚ × List OvertoneDistribution) (firstD : ℕ) :
    ℚ × List OvertoneDistribution :=
  if ¬ (dAt s.2 firstD).isMuted then
    (List.range (dAt s.2 firstD).numPartials).foldl (partialLoop R b n firstD) s
  else s

/-- Source SpectralInterferenceModel::calculateDissonance.  Returns the total
dissonance together with the distribution array after the accumulate writes
(b = sumPartialDissonances).  The loop bodies are the step functions above,
one per source loop. -/
def SpectralInterferenceModel.calculateDissonance (R : Roughness)
    (distributions : List OvertoneDistribution) (b : Bool) :
    ℚ × List OvertoneDistribution :=
  let n := distributions.length
  (List.range n).foldl (distLoop R b n)
    ((List.range n).foldl (fundPairOuter R b n) (0, distributions))

/-!
Claim C2: attribution of contributions under accumulate=true.
-/

/-- C2 failing input: a single unmuted distribution, fundamental 100 Hz at
amplitude 1, two unmuted partials (ratios 2 and 3, amplitude ratio 1). -/
def c2Dist : OvertoneDistribution :=
  { partials := [{ freq := 2, amp := 1 }, { freq := 3, amp := 1 }],
    fundamental := { freq := 100, amp := 1 } }

/-- Constant elementary roughness, so every contribution is exactly 1. -/
def c2R : Roughness := fun _ _ _ _ => 1

/-- The run of the model on the C2 failing input with accumulate=true. -/
def c2Out : ℚ × List OvertoneDistribution :=
  SpectralInterferenceModel.calculateDissonance c2R [c2Dist] true

/-- C2 failing input evaluated: the contributions are (p0,fund), (p1,fund)
and (p0,p1), each of roughness 1, total 3.  Partial 1 participates in two of
them, so the claim demands that exactly 1 be accumulated onto it, yet the
code accumulates only 1/2 there (and 3/2 onto partial 0): line 112 of
DissonanceModel.cpp passes the distribution index instead of the partial
index when splitting a partial-versus-fundamental contribution.  The grand
total of the accumulated values still matches the returned dissonance. -/
theorem accumulate_misattributes_partial_dissonance :
    c2Out.1 = 3 ∧
    (dAt c2Out.2 0).getPartialDissonance 0 = 3 / 2 ∧
    (dAt c2Out.2 0).getPartialDissonance 1 = 1 / 2 ∧
    (dAt c2Out.2 0).getDissonanceOfFundamental = 1 ∧
    (c2R (c2Dist.getRealFreq 1) (c2Dist.getRealAmp 1) c2Dist.getFundamentalFreq
        c2Dist.getFundamentalAmp +
      c2R (c2Dist.getRealFreq 0) (c2Dist.getRealAmp 0) (c2Dist.getRealFreq 1)
        (c2Dist.getRealAmp 1)) / 2 = 1 ∧
    (1 / 2 : ℚ) ≠ 1 ∧
    (dAt c2Out.2 0).getTotalDissonance = c2Out.1 := by
  norm_num [c2Out, c2Dist, c2R, SpectralInterferenceModel.calculateDissonance,
    distLoop, partialLoop, partialPairMid, partialPairInner, partialFundInner,
    fundPairOuter, fundPairInner, fundOnD,
    dAt, updAt, upFrom, List.range_succ, List.range',
    OvertoneDistribution.numPartials, OvertoneDistribution.fundamentalIsMuted,
    OvertoneDistribution.isMuted, OvertoneDistribution.partialIsMuted,
    OvertoneDistribution.getRealFreq, OvertoneDistribution.getRealAmp,
    OvertoneDistribution.getFundamentalFreq, OvertoneDistribution.getFundamentalAmp,
    OvertoneDistribution.addPartialDissonance,
    OvertoneDistribution.addDissonanceToFundamental,
    OvertoneDistribution.getPartialDissonance,
    OvertoneDistribution.getDissonanceOfFundamental,
    OvertoneDistribution.getTotalDissonance]

/-!
Claim C1: the returned total is the unweighted sum of the three families of
pairwise contributions.  The proof machinery: the accumulate writes touch
only dissonance fields, so every loop read is invariant along the fold; this
is captured by a shape relation preserved by the state updates.
-/

lemma getD_set_ite {α : Type} [Inhabited α] (l : List α) (i j : ℕ) (a : α) :
    (l.set i a).getD j default = if i = j ∧ i < l.length then a else l.getD j default := by
  simp only [List.getD_eq_getElem?_getD, List.getElem?_set]
  by_cases hij : i = j
  · subst hij
    by_cases hi : i < l.length
    · simp [hi]
    · simp [hi, List.getElem?_eq_none (le_of_not_lt hi)]
  · simp [hij]

/-- Agreement on every field the model's loops read: mute flags, fundamental
frequency and amplitude, and each partial's frequency, amplitude and mute
flag (accumulated dissonance may differ). -/
def SameShape (d e : OvertoneDistribution) : Prop :=
  d.muted = e.muted ∧
  d.fundamental.freq = e.fundamental.freq ∧
  d.fundamental.amp = e.fundamental.amp ∧
  d.fundamental.muted = e.fundamental.muted ∧
  d.partials.length = e.partials.length ∧
  ∀ p : ℕ,
    (d.partials.getD p default).freq = (e.partials.getD p default).freq ∧
    (d.partials.getD p default).amp = (e.partials.getD p default).amp ∧
    (d.partials.getD p default).muted = (e.partials.getD p default).muted

lemma sameShape_refl (d : OvertoneDistribution) : SameShape d d :=
  ⟨rfl, rfl, rfl, rfl, rfl, fun _ => ⟨rfl, rfl, rfl⟩⟩

lemma SameShape.trans {d e f : OvertoneDistribution}
    (h1 : SameShape d e) (h2 : SameShape e f) : SameShape d f := by
  obtain ⟨a1, b1, c1, d1, e1, f1⟩ := h1
  obtain ⟨a2, b2, c2, d2, e2, f2⟩ := h2
  refine ⟨a1.trans a2, b1.trans b2, c1.trans c2, d1.trans d2, e1.trans e2, fun p => ?_⟩
  obtain ⟨x1, y1, z1⟩ := f1 p
  obtain ⟨x2, y2, z2⟩ := f2 p
  exact ⟨x1.trans x2, y1.trans y2, z1.trans z2⟩

lemma SameShape.addDissonanceToFundamental (d : OvertoneDistribution) (x : ℚ) :
    SameShape (d.addDissonanceToFundamental x) d :=
  ⟨rfl, rfl, rfl, rfl, rfl, fun _ => ⟨rfl, rfl, rfl⟩⟩

lemma SameShape.addPartialDissonance (d : OvertoneDistribution) (p : ℕ) (x : ℚ) :
    SameShape (d.addPartialDissonance p x) d := by
  refine ⟨rfl, rfl, rfl, rfl, List.length_set _ _ _, fun q => ?_⟩
  unfold OvertoneDistribution.addPartialDissonance
  simp only [getD_set_ite]
  by_cases h : p = q ∧ p < d.partials.length
  · rw [if_pos h]
    obtain ⟨hpq, _⟩ := h
    subst hpq
    exact ⟨rfl, rfl, rfl⟩
  · rw [if_neg h]
    exact ⟨rfl, rfl, rfl⟩

/-- Pointwise shape agreement of two distribution arrays. -/
def SameShapeL (ds es : List OvertoneDistribution) : Prop :=
  ds.length = es.length ∧ ∀ i : ℕ, SameShape (dAt ds i) (dAt es i)

lemma sameShapeL_refl (ds : List OvertoneDistribution) : SameShapeL ds ds :=
  ⟨rfl, fun i => sameShape_refl (dAt ds i)⟩

lemma SameShapeL.updAt {ds es : List OvertoneDistribution}
    (h : SameShapeL ds es) (i : ℕ) (f : OvertoneDistribution → OvertoneDistribution)
    (hf : ∀ d, SameShape (f d) d) : SameShapeL (updAt ds i f) es := by
  refine ⟨(List.length_set _ _ _).trans h.1, fun j => ?_⟩
  unfold DisMAL.updAt dAt
  rw [getD_set_ite]
  by_cases hij : i = j ∧ i < ds.length
  · rw [if_pos hij]
    obtain ⟨hij1, _⟩ := hij
    subst hij1
    exact (hf _).trans (h.2 i)
  · rw [if_neg hij]
    exact h.2 j

/- Read functions used by the loop bodies, and their shape-invariance. -/

lemma SameShape.fundOnD_iff {d e : OvertoneDistribution} (h : SameShape d e) :
    fundOnD d ↔ fundOnD e := by
  unfold fundOnD OvertoneDistribution.fundamentalIsMuted OvertoneDistribution.isMuted
  rw [h.1, h.2.2.2.1]

lemma SameShape.isMuted_iff {d e : OvertoneDistribution} (h : SameShape d e) :
    (d.isMuted = true) ↔ (e.isMuted = true) := by
  unfold OvertoneDistribution.isMuted
  rw [h.1]

lemma SameShape.partialIsMuted_iff {d e : OvertoneDistribution}
    (h : SameShape d e) (p : ℕ) :
    (d.partialIsMuted p = true) ↔ (e.partialIsMuted p = true) := by
  unfold OvertoneDistribution.partialIsMuted
  rw [(h.2.2.2.2.2 p).2.2]

lemma SameShape.numPartials_eq {d e : OvertoneDistribution} (h : SameShape d e) :
    d.numPartials = e.numPartials :=
  h.2.2.2.2.1

lemma SameShape.getFundamentalFreq_eq {d e : OvertoneDistribution}
    (h : SameShape d e) : d.getFundamentalFreq = e.getFundamentalFreq :=
  h.2.1

lemma SameShape.getFundamentalAmp_eq {d e : OvertoneDistribution}
    (h : SameShape d e) : d.getFundamentalAmp = e.getFundamentalAmp :=
  h.2.2.1

lemma SameShape.getRealFreq_eq {d e : OvertoneDistribution} (h : SameShape d e)
    (p : ℕ) : d.getRealFreq p = e.getRealFreq p := by
  unfold OvertoneDistribution.getRealFreq
  rw [(h.2.2.2.2.2 p).1, h.2.1]

lemma SameShape.getRealAmp_eq {d e : OvertoneDistribution} (h : SameShape d e)
    (p : ℕ) : d.getRealAmp p = e.getRealAmp p := by
  unfold OvertoneDistribution.getRealAmp
  rw [(h.2.2.2.2.2 p).2.1, h.2.2.1]

/-- The workhorse: a fold whose step adds a state-independent amount to the
accumulator (guards and values read only shape-invariant fields) and whose
state updates preserve shape. -/
lemma foldl_guarded_sum (ds0 : List OvertoneDistribution) (F : ℕ → ℚ)
    (step : ℚ × List OvertoneDistribution → ℕ → ℚ × List OvertoneDistribution) :
    ∀ (l : List ℕ) (s : ℚ × List OvertoneDistribution),
      (∀ t i, i ∈ l → SameShapeL t.2 ds0 →
        (step t i).1 = t.1 + F i ∧ SameShapeL (step t i).2 ds0) →
      SameShapeL s.2 ds0 →
      (l.foldl step s).1 = s.1 + (l.map F).sum ∧
        SameShapeL (l.foldl step s).2 ds0 := by
  intro l
  induction l with
  | nil =>
    intro s _ hs
    simpa using hs
  | cons a as ih =>
    intro s hstep hs
    have h1 := hstep s a (List.mem_cons_self a as) hs
    have h2 := ih (step s a)
      (fun t i hi ht => hstep t i (List.mem_cons_of_mem a hi) ht) h1.2
    refine ⟨?_, by rw [List.foldl_cons]; exact h2.2⟩
    rw [List.foldl_cons, h2.1, h1.1, List.map_cons, List.sum_cons]
    ring

/- Guards and roughness reads evaluated on the initial array. -/

/-- distributions[i] is unmuted. -/
def distOn (ds : List OvertoneDistribution) (i : ℕ) : Prop :=
  ¬ (dAt ds i).isMuted

instance (ds : List OvertoneDistribution) (i : ℕ) : Decidable (distOn ds i) := by
  unfold distOn
  infer_instance

/-- distributions[i] and its fundamental are unmuted. -/
def fundOn (ds : List OvertoneDistribution) (i : ℕ) : Prop :=
  fundOnD (dAt ds i)

instance (ds : List OvertoneDistribution) (i : ℕ) : Decidable (fundOn ds i) := by
  unfold fundOn
  infer_instance

/-- partial p of distributions[i] is unmuted. -/
def pOn (ds : List OvertoneDistribution) (i p : ℕ) : Prop :=
  ¬ (dAt ds i).partialIsMuted p

instance (ds : List OvertoneDistribution) (i p : ℕ) : Decidable (pOn ds i p) := by
  unfold pOn
  infer_instance

/-- numPartials of distributions[i]. -/
def nP (ds : List OvertoneDistribution) (i : ℕ) : ℕ :=
  (dAt ds i).numPartials

/-- Roughness of the fundamentals of distributions i and j. -/
def Rff (R : Roughness) (ds : List OvertoneDistribution) (i j : ℕ) : ℚ :=
  R (dAt ds i).getFundamentalFreq (dAt ds i).getFundamentalAmp
    (dAt ds j).getFundamentalFreq (dAt ds j).getFundamentalAmp

/-- Roughness of partial p of distribution i against the fundamental of
distribution j (real frequency and amplitude for the partial, absolute
values for the fundamental). -/
def Rpf (R : Roughness) (ds : List OvertoneDistribution) (i p j : ℕ) : ℚ :=
  R ((dAt ds i).getRealFreq p) ((dAt ds i).getRealAmp p)
    (dAt ds j).getFundamentalFreq (dAt ds j).getFundamentalAmp

/-- Roughness of partial p of distribution i against partial q of
distribution j (real frequencies and amplitudes). -/
def Rpp (R : Roughness) (ds : List OvertoneDistribution) (i p j q : ℕ) : ℚ :=
  R ((dAt ds i).getRealFreq p) ((dAt ds i).getRealAmp p)
    ((dAt ds j).getRealFreq q) ((dAt ds j).getRealAmp q)

lemma fundPairInner_sum (R : Roughness) (b : Bool) (ds0 : List OvertoneDistribution)
    (firstF : ℕ) (l : List ℕ) (t : ℚ × List OvertoneDistribution)
    (ht : SameShapeL t.2 ds0) :
    (l.foldl (fundPairInner R b firstF) t).1 =
      t.1 + (l.map fun j => if fundOn ds0 j then Rff R ds0 firstF j else 0).sum ∧
    SameShapeL (l.foldl (fundPairInner R b firstF) t).2 ds0 := by
  refine foldl_guarded_sum ds0 _ _ l t ?_ ht
  intro u j _ hu
  unfold fundPairInner
  by_cases hj : fundOn ds0 j
  · rw [if_pos ((hu.2 j).fundOnD_iff.mpr hj), if_pos hj]
    constructor
    · show u.1 + _ = u.1 + _
      congr 1
      unfold Rff
      rw [(hu.2 firstF).getFundamentalFreq_eq, (hu.2 firstF).getFundamentalAmp_eq,
        (hu.2 j).getFundamentalFreq_eq, (hu.2 j).getFundamentalAmp_eq]
    · show SameShapeL (if b then _ else u.2) ds0
      cases b with
      | false => exact hu
      | true =>
        rw [if_pos rfl]
        exact (hu.updAt firstF _ fun d =>
            SameShape.addDissonanceToFundamental d _).updAt j _
          fun d => SameShape.addDissonanceToFundamental d _
  · rw [if_neg fun hc => hj ((hu.2 j).fundOnD_iff.mp hc), if_neg hj]
    exact ⟨(add_zero u.1).symm, hu⟩

lemma fundPairOuter_sum (R : Roughness) (b : Bool) (ds0 : List OvertoneDistribution)
    (l : List ℕ) (s : ℚ × List OvertoneDistribution) (hs : SameShapeL s.2 ds0) :
    (l.foldl (fundPairOuter R b ds0.length) s).1 =
      s.1 + (l.map fun i =>
        if fundOn ds0 i then
          ((upFrom (i + 1) ds0.length).map fun j =>
            if fundOn ds0 j then Rff R ds0 i j else 0).sum
        else 0).sum ∧
    SameShapeL (l.foldl (fundPairOuter R b ds0.length) s).2 ds0 := by
  refine foldl_guarded_sum ds0 _ _ l s ?_ hs
  intro u i _ hu
  unfold fundPairOuter
  by_cases hi : fundOn ds0 i
  · rw [if_pos ((hu.2 i).fundOnD_iff.mpr hi), if_pos hi]
    exact fundPairInner_sum R b ds0 i (upFrom (i + 1) ds0.length) u hu
  · rw [if_neg fun hc => hi ((hu.2 i).fundOnD_iff.mp hc), if_neg hi]
    exact ⟨(add_zero u.1).symm, hu⟩

lemma partialFundInner_sum (R : Roughness) (b : Bool)
    (ds0 : List OvertoneDistribution) (firstD firstP : ℕ) (l : List ℕ)
    (t : ℚ × List OvertoneDistribution) (ht : SameShapeL t.2 ds0) :
    (l.foldl (partialFundInner R b firstD firstP) t).1 =
      t.1 + (l.map fun j => if fundOn ds0 j then Rpf R ds0 firstD firstP j else 0).sum ∧
    SameShapeL (l.foldl (partialFundInner R b firstD firstP) t).2 ds0 := by
  refine foldl_guarded_sum ds0 _ _ l t ?_ ht
  intro u j _ hu
  unfold partialFundInner
  by_cases hj : fundOn ds0 j
  · rw [if_pos ((hu.2 j).fundOnD_iff.mpr hj), if_pos hj]
    constructor
    · show u.1 + _ = u.1 + _
      congr 1
      unfold Rpf
      rw [(hu.2 firstD).getRealFreq_eq, (hu.2 firstD).getRealAmp_eq,
        (hu.2 j).getFundamentalFreq_eq, (hu.2 j).getFundamentalAmp_eq]
    · show SameShapeL (if b then _ else u.2) ds0
      cases b with
      | false => exact hu
      | true =>
        rw [if_pos rfl]
        exact (hu.updAt firstD _ fun d =>
            SameShape.addPartialDissonance d _ _).updAt j _
          fun d => SameShape.addDissonanceToFundamental d _
  · rw [if_neg fun hc => hj ((hu.2 j).fundOnD_iff.mp hc), if_neg hj]
    exact ⟨(add_zero u.1).symm, hu⟩

lemma partialPairInner_sum (R : Roughness) (b : Bool)
    (ds0 : List OvertoneDistribution) (firstD firstP secondD : ℕ) (l : List ℕ)
    (w : ℚ × List OvertoneDistribution) (hw : SameShapeL w.2 ds0) :
    (l.foldl (partialPairInner R b firstD firstP secondD) w).1 =
      w.1 + (l.map fun q =>
        if distOn ds0 secondD ∧ pOn ds0 secondD q then
          Rpp R ds0 firstD firstP secondD q
        else 0).sum ∧
    SameShapeL (l.foldl (partialPairInner R b firstD firstP secondD) w).2 ds0 := by
  refine foldl_guarded_sum ds0 _ _ l w ?_ hw
  intro u q _ hu
  unfold partialPairInner
  have hiff : (¬ (dAt u.2 secondD).isMuted ∧
      ¬ (dAt u.2 secondD).partialIsMuted q) ↔
      (distOn ds0 secondD ∧ pOn ds0 secondD q) := by
    unfold distOn pOn
    exact and_congr (not_congr (hu.2 secondD).isMuted_iff)
      (not_congr ((hu.2 secondD).partialIsMuted_iff q))
  by_cases hq : distOn ds0 secondD ∧ pOn ds0 secondD q
  · rw [if_pos (hiff.mpr hq), if_pos hq]
    constructor
    · show u.1 + _ = u.1 + _
      congr 1
      unfold Rpp
      rw [(hu.2 firstD).getRealFreq_eq, (hu.2 firstD).getRealAmp_eq,
        (hu.2 secondD).getRealFreq_eq, (hu.2 secondD).getRealAmp_eq]
    · show SameShapeL (if b then _ else u.2) ds0
      cases b with
      | false => exact hu
      | true =>
        rw [if_pos rfl]
        exact (hu.updAt firstD _ fun d =>
            SameShape.addPartialDissonance d _ _).updAt secondD _
          fun d => SameShape.addPartialDissonance d _ _
  · rw [if_neg fun hc => hq (hiff.mp hc), if_neg hq]
    exact ⟨(add_zero u.1).symm, hu⟩

lemma partialPairMid_sum (R : Roughness) (b : Bool)
    (ds0 : List OvertoneDistribution) (firstD firstP : ℕ) (l : List ℕ)
    (v : ℚ × List OvertoneDistribution) (hv : SameShapeL v.2 ds0) :
    (l.foldl (partialPairMid R b firstD firstP) v).1 =
      v.1 + (l.map fun j =>
        ((upFrom (if firstD = j then firstP + 1 else 0) (nP ds0 j)).map fun q =>
          if distOn ds0 j ∧ pOn ds0 j q then Rpp R ds0 firstD firstP j q
          else 0).sum).sum ∧
    SameShapeL (l.foldl (partialPairMid R b firstD firstP) v).2 ds0 := by
  refine foldl_guarded_sum ds0 _ _ l v ?_ hv
  intro u j _ hu
  unfold partialPairMid
  rw [show (dAt u.2 j).numPartials = nP ds0 j from (hu.2 j).numPartials_eq]
  exact partialPairInner_sum R b ds0 firstD firstP j _ u hu

lemma partialLoop_sum (R : Roughness) (b : Bool)
    (ds0 : List OvertoneDistribution) (firstD : ℕ) (l : List ℕ)
    (t : ℚ × List OvertoneDistribution) (ht : SameShapeL t.2 ds0) :
    (l.foldl (partialLoop R b ds0.length firstD) t).1 =
      t.1 + (l.map fun p =>
        if pOn ds0 firstD p then
          ((List.range ds0.length).map fun j =>
            if fundOn ds0 j then Rpf R ds0 firstD p j else 0).sum +
          ((upFrom firstD ds0.length).map fun j =>
            ((upFrom (if firstD = j then p + 1 else 0) (nP ds0 j)).map fun q =>
              if distOn ds0 j ∧ pOn ds0 j q then Rpp R ds0 firstD p j q
              else 0).sum).sum
        else 0).sum ∧
    SameShapeL (l.foldl (partialLoop R b ds0.length firstD) t).2 ds0 := by
  refine foldl_guarded_sum ds0 _ _ l t ?_ ht
  intro u p _ hu
  unfold partialLoop
  by_cases hp : pOn ds0 firstD p
  · have hguard : ¬ (dAt u.2 firstD).partialIsMuted p :=
      fun hc => hp (((hu.2 firstD).partialIsMuted_iff p).mp hc)
    rw [if_pos hguard, if_pos hp]
    have hA := partialFundInner_sum R b ds0 firstD p (List.range ds0.length) u hu
    have hB := partialPairMid_sum R b ds0 firstD p (upFrom firstD ds0.length) _ hA.2
    refine ⟨?_, hB.2⟩
    rw [hB.1, hA.1, add_assoc]
  · have hguard : ¬ ¬ (dAt u.2 firstD).partialIsMuted p := by
      intro hc
      exact hp fun hm => hc (((hu.2 firstD).partialIsMuted_iff p).mpr hm)
    rw [if_neg hguard, if_neg hp]
    exact ⟨(add_zero u.1).symm, hu⟩

lemma distLoop_sum (R : Roughness) (b : Bool)
    (ds0 : List OvertoneDistribution) (l : List ℕ)
    (s : ℚ × List OvertoneDistribution) (hs : SameShapeL s.2 ds0) :
    (l.foldl (distLoop R b ds0.length) s).1 =
      s.1 + (l.map fun i =>
        if distOn ds0 i then
          ((List.range (nP ds0 i)).map fun p =>
            if pOn ds0 i p then
              ((List.range ds0.length).map fun j =>
                if fundOn ds0 j then Rpf R ds0 i p j else 0).sum +
              ((upFrom i ds0.length).map fun j =>
                ((upFrom (if i = j then p + 1 else 0) (nP ds0 j)).map fun q =>
                  if distOn ds0 j ∧ pOn ds0 j q then Rpp R ds0 i p j q
                  else 0).sum).sum
            else 0).sum
        else 0).sum ∧
    SameShapeL (l.foldl (distLoop R b ds0.length) s).2 ds0 := by
  refine foldl_guarded_sum ds0 _ _ l s ?_ hs
  intro u i _ hu
  unfold distLoop
  by_cases hi : distOn ds0 i
  · have hguard : ¬ (dAt u.2 i).isMuted :=
      fun hc => hi (((hu.2 i).isMuted_iff).mp hc)
    rw [if_pos hguard, if_pos hi,
      show (dAt u.2 i).numPartials = nP ds0 i from (hu.2 i).numPartials_eq]
    exact partialLoop_sum R b ds0 i (List.range (nP ds0 i)) u hu
  · have hguard : ¬ ¬ (dAt u.2 i).isMuted := by
      intro hc
      exact hi fun hm => hc (((hu.2 i).isMuted_iff).mpr hm)
    rw [if_neg hguard, if_neg hi]
    exact ⟨(add_zero u.1).symm, hu⟩

/-- The code total as structured nested sums (one summand per loop nest,
guards exactly as in the source). -/
def loop1Sum (R : Roughness) (ds : List OvertoneDistribution) : ℚ :=
  ((List.range ds.length).map fun i =>
    if fundOn ds i then
      ((upFrom (i + 1) ds.length).map fun j =>
        if fundOn ds j then Rff R ds i j else 0).sum
    else 0).sum

/-- The code total of the partial loops as structured nested sums. -/
def loop2Sum (R : Roughness) (ds : List OvertoneDistribution) : ℚ :=
  ((List.range ds.length).map fun i =>
    if distOn ds i then
      ((List.range (nP ds i)).map fun p =>
        if pOn ds i p then
          ((List.range ds.length).map fun j =>
            if fundOn ds j then Rpf R ds i p j else 0).sum +
          ((upFrom i ds.length).map fun j =>
            ((upFrom (if i = j then p + 1 else 0) (nP ds j)).map fun q =>
              if distOn ds j ∧ pOn ds j q then Rpp R ds i p j q
              else 0).sum).sum
        else 0).sum
    else 0).sum

/-- The model's return value is exactly the two structured loop sums, for
either accumulate flag. -/
lemma calcDiss_fst (R : Roughness) (ds : List OvertoneDistribution) (b : Bool) :
    (SpectralInterferenceModel.calculateDissonance R ds b).1 =
      loop1Sum R ds + loop2Sum R ds := by
  have h1 := fundPairOuter_sum R b ds (List.range ds.length) (0, ds)
    (sameShapeL_refl ds)
  have h2 := distLoop_sum R b ds (List.range ds.length)
    ((List.range ds.length).foldl (fundPairOuter R b ds.length) (0, ds)) h1.2
  show ((List.range ds.length).foldl (distLoop R b ds.length)
    ((List.range ds.length).foldl (fundPairOuter R b ds.length) (0, ds))).1 = _
  rw [h2.1, h1.1, zero_add]
  rfl

/- Bridging list sums and Finset sums. -/

lemma sum_map_range (n : ℕ) (F : ℕ → ℚ) :
    ((List.range n).map F).sum = ∑ i in Finset.range n, F i := by
  induction n with
  | zero => simp
  | succ n ih =>
    rw [List.range_succ, List.map_append, List.sum_append, Finset.sum_range_succ, ih]
    simp

lemma sum_map_upFrom (lo hi : ℕ) (F : ℕ → ℚ) :
    ((upFrom lo hi).map F).sum = ∑ i in Finset.Ico lo hi, F i := by
  unfold upFrom
  rw [List.range'_eq_map_range, List.map_map, sum_map_range,
    Finset.sum_Ico_eq_sum_range]
  rfl

lemma sum_range_ite_lt (n a : ℕ) (P : ℕ → Prop) [DecidablePred P] (v : ℕ → ℚ) :
    (∑ j in Finset.range n, if a < j ∧ P j then v j else 0) =
      ∑ j in Finset.Ico (a + 1) n, if P j then v j else 0 := by
  rw [← Finset.sum_filter, ← Finset.sum_filter]
  apply Finset.sum_congr _ fun _ _ => rfl
  ext j
  simp only [Finset.mem_filter, Finset.mem_range, Finset.mem_Ico]
  constructor
  · rintro ⟨h1, h2, h3⟩
    exact ⟨⟨h2, h1⟩, h3⟩
  · rintro ⟨⟨h2, h1⟩, h3⟩
    exact ⟨h1, h2, h3⟩

lemma sum_Ico_eq_sum_range_ite (n a : ℕ) (v : ℕ → ℚ) :
    (∑ j in Finset.Ico a n, v j) = ∑ j in Finset.range n, if a ≤ j then v j else 0 := by
  rw [← Finset.sum_filter]
  apply Finset.sum_congr _ fun _ _ => rfl
  ext j
  simp only [Finset.mem_filter, Finset.mem_range, Finset.mem_Ico]
  exact and_comm

/- The claim-side sums of C1. -/

/-- C1 (a): every unordered pair of distinct unmuted distributions whose
fundamentals are unmuted, as index pairs i < j, contributing the roughness
of the two fundamentals. -/
def fundPairSpecSum (R : Roughness) (ds : List OvertoneDistribution) : ℚ :=
  ∑ ij in (Finset.range ds.length ×ˢ Finset.range ds.length).filter
      (fun ij => ij.1 < ij.2 ∧ fundOn ds ij.1 ∧ fundOn ds ij.2),
    Rff R ds ij.1 ij.2

/-- All (distribution index, partial index) entries. -/
def entries (ds : List OvertoneDistribution) : Finset ((_ : ℕ) × ℕ) :=
  (Finset.range ds.length).sigma fun i => Finset.range (nP ds i)

/-- C1 (b): every unmuted partial of an unmuted distribution, against every
unmuted distribution's unmuted fundamental — the partial's own
distribution's fundamental included — with the partial entering at real
frequency and amplitude. -/
def partialFundSpecSum (R : Roughness) (ds : List OvertoneDistribution) : ℚ :=
  ∑ e in (entries ds).filter (fun e => distOn ds e.1 ∧ pOn ds e.1 e.2),
    ∑ j in (Finset.range ds.length).filter (fun j => fundOn ds j),
      Rpf R ds e.1 e.2 j

/-- C1 (c): every unordered pair of distinct unmuted partials of unmuted
distributions, a pair within one distribution being counted only with the
strictly later-indexed partial second (never a partial with itself). -/
def partialPairSpecSum (R : Roughness) (ds : List OvertoneDistribution) : ℚ :=
  ∑ e1 in entries ds, ∑ e2 in entries ds,
    if (e1.1 < e2.1 ∨ (e1.1 = e2.1 ∧ e1.2 < e2.2)) ∧
        (distOn ds e1.1 ∧ pOn ds e1.1 e1.2) ∧
        (distOn ds e2.1 ∧ pOn ds e2.1 e2.2) then
      Rpp R ds e1.1 e1.2 e2.1 e2.2
    else 0

lemma loop1Sum_eq_spec (R : Roughness) (ds : List OvertoneDistribution) :
    loop1Sum R ds = fundPairSpecSum R ds := by
  unfold loop1Sum fundPairSpecSum
  rw [sum_map_range, Finset.sum_filter, Finset.sum_product]
  apply Finset.sum_congr rfl
  intro i _
  rw [sum_map_upFrom, sum_range_ite_lt]
  by_cases hi : fundOn ds i
  · rw [if_pos hi]
    exact Finset.sum_congr rfl fun j _ => by rw [if_congr (and_iff_right hi) rfl rfl]
  · rw [if_neg hi]
    symm
    apply Finset.sum_eq_zero
    intro j _
    rw [if_neg fun hc => hi hc.1]

lemma ite_sum_zero {γ : Type} {c : Prop} [Decidable c] (s : Finset γ) (f : γ → ℚ) :
    (if c then (∑ x in s, f x) else 0) = ∑ x in s, (if c then f x else 0) := by
  by_cases hc : c <;> simp [hc]

lemma loop2_cond_iff (ds : List OvertoneDistribution) (i p j q : ℕ) :
    ((distOn ds i ∧ pOn ds i p) ∧ i ≤ j ∧
      ((if i = j then p + 1 else 0) ≤ q ∧ (distOn ds j ∧ pOn ds j q))) ↔
    ((i < j ∨ (i = j ∧ p < q)) ∧ (distOn ds i ∧ pOn ds i p) ∧
      (distOn ds j ∧ pOn ds j q)) := by
  by_cases hij : i = j
  · subst hij
    rw [if_pos rfl]
    constructor
    · rintro ⟨h1, _, h3, h4⟩
      exact ⟨Or.inr ⟨rfl, h3⟩, h1, h4⟩
    · rintro ⟨hlex, h1, h4⟩
      rcases hlex with hlt | ⟨_, hpq⟩
      · exact absurd hlt (Nat.lt_irrefl i)
      · exact ⟨h1, Nat.le_refl i, hpq, h4⟩
  · rw [if_neg hij]
    constructor
    · rintro ⟨h1, hle, _, h4⟩
      exact ⟨Or.inl (Nat.lt_of_le_of_ne hle hij), h1, h4⟩
    · rintro ⟨hlex, h1, h4⟩
      rcases hlex with hlt | ⟨heq, _⟩
      · exact ⟨h1, Nat.le_of_lt hlt, Nat.zero_le q, h4⟩
      · exact absurd heq hij

lemma loop2Sum_eq_spec (R : Roughness) (ds : List OvertoneDistribution) :
    loop2Sum R ds = partialFundSpecSum R ds + partialPairSpecSum R ds := by
  unfold loop2Sum partialFundSpecSum partialPairSpecSum entries
  rw [sum_map_range]
  simp only [Finset.sum_filter, Finset.sum_sigma]
  rw [← Finset.sum_add_distrib]
  apply Finset.sum_congr rfl
  intro i _
  rw [sum_map_range, ite_sum_zero, ← Finset.sum_add_distrib]
  apply Finset.sum_congr rfl
  intro p _
  by_cases hc : distOn ds i ∧ pOn ds i p
  · rw [if_pos hc.1, if_pos hc.2, if_pos hc]
    have hA := sum_map_range ds.length fun j => if fundOn ds j then Rpf R ds i p j else 0
    have hB : ((upFrom i ds.length).map fun j =>
        ((upFrom (if i = j then p + 1 else 0) (nP ds j)).map fun q =>
          if distOn ds j ∧ pOn ds j q then Rpp R ds i p j q else 0).sum).sum =
        ∑ j in Finset.range ds.length, ∑ q in Finset.range (nP ds j),
          if (i < j ∨ (i = j ∧ p < q)) ∧ (distOn ds i ∧ pOn ds i p) ∧
              (distOn ds j ∧ pOn ds j q) then Rpp R ds i p j q else 0 := by
      rw [sum_map_upFrom, sum_Ico_eq_sum_range_ite]
      apply Finset.sum_congr rfl
      intro j _
      rw [sum_map_upFrom, sum_Ico_eq_sum_range_ite, ite_sum_zero]
      apply Finset.sum_congr rfl
      intro q _
      rw [← ite_and, ← ite_and]
      refine if_congr ?_ rfl rfl
      have h := loop2_cond_iff ds i p j q
      constructor
      · rintro ⟨⟨h1, h2⟩, h3⟩
        exact h.mp ⟨hc, h1, h2, h3⟩
      · intro hbig
        obtain ⟨_, hle, hsq, h2⟩ := h.mpr hbig
        exact ⟨⟨hle, hsq⟩, h2⟩
    rw [hA, hB]
  · have hz1 : (if distOn ds i then
        (if pOn ds i p then
          ((List.range ds.length).map fun j =>
            if fundOn ds j then Rpf R ds i p j else 0).sum +
          ((upFrom i ds.length).map fun j =>
            ((upFrom (if i = j then p + 1 else 0) (nP ds j)).map fun q =>
              if distOn ds j ∧ pOn ds j q then Rpp R ds i p j q
              else 0).sum).sum
        else 0)
      else (0 : ℚ)) = 0 := by
      by_cases hd : distOn ds i
      · rw [if_pos hd, if_neg fun hp => hc ⟨hd, hp⟩]
      · rw [if_neg hd]
    rw [hz1, if_neg hc]
    symm
    rw [zero_add]
    apply Finset.sum_eq_zero
    intro j _
    apply Finset.sum_eq_zero
    intro q _
    exact if_neg fun hcond => hc hcond.2.1

/-- C1: for every distribution array and either accumulate flag, the model's
returned total equals the unweighted sum of (a) the roughness of every
unordered pair of distinct unmuted distributions' unmuted fundamentals, (b)
the roughness of every unmuted partial of an unmuted distribution against
every unmuted distribution's unmuted fundamental (its own included), with
partials entering at real frequency/amplitude, and (c) the roughness of
every unordered pair of distinct unmuted partials of unmuted distributions,
a partial pairing within its own distribution only with strictly
later-indexed partials. -/
theorem calculateDissonance_total_eq_pairwise_sums (R : Roughness)
    (ds : List OvertoneDistribution) (b : Bool) :
    (SpectralInterferenceModel.calculateDissonance R ds b).1 =
      fundPairSpecSum R ds + partialFundSpecSum R ds + partialPairSpecSum R ds := by
  rw [calcDiss_fst, loop1Sum_eq_spec, loop2Sum_eq_spec, add_assoc]

/-!
The orchestrator (DissonanceCalc.cpp), as far as the sweep claims C5 and C10
need it.  The polymorphic model is the abstract roughness parameter R of the
interference model; preprocessors are modelled as functions on distribution
arrays; pow(x, 1.0/numSteps) in setStepSize is modelled by an abstract root
function.  Note juce::Array::operator[] returns a copy, so the source's
map3D[xStep].set(...) writes into a temporary: the 3D sweep stores nothing,
and the embedding leaves map3D unchanged. -/

abbrev PreprocessorFn : Type := List OvertoneDistribution → List OvertoneDistribution

/-- Orchestrator state (DissonanceCalc.h).  In the source, numSteps and
stepSize are uninitialized until setNumSteps/setStepSize run; their defaults
here are irrelevant to the claims, which constrain configured runs. -/
structure DissonanceCalc where
  distributions : List OvertoneDistribution := []
  preprocessors : List PreprocessorFn := []
  sumPartialDissonances : Bool := true
  frequencyRange : RangeQ := {}
  stepSize : ℚ := 0
  numSteps : ℕ := 0
  logSteps : Bool := false
  varDist : ℕ := 0
  xDist : ℕ := 0
  yDist : ℕ := 0
  dimensionality : ℕ := 2
  map2D : List ℚ := []
  map3D : List (List ℚ) := []
  minima : List ℚ := []
  maxima : List ℚ := []

/-- The preprocessor pipeline applied in order to a working copy. -/
def applyPreprocessors (pres : List PreprocessorFn)
    (ds : List OvertoneDistribution) : List OvertoneDistribution :=
  pres.foldl (fun acc pre => pre acc) ds

/-- One evaluation as performed at each grid point of a sweep
(DissonanceCalc.cpp 401-409): fresh copies of the distributions, the
preprocessor chain, then the model without accumulation. -/
def evalDissonance (R : Roughness) (pres : List PreprocessorFn)
    (ds : List OvertoneDistribution) : ℚ :=
  (SpectralInterferenceModel.calculateDissonance R
    (applyPreprocessors pres (ds.map OvertoneDistribution.copy)) false).1

/-- The step size policy of setStepSize (DissonanceCalc.cpp 587-597):
logarithmic sweeps use the numSteps-th root of end/start (nroot models
pow(., 1.0/numSteps)), linear sweeps use (end - start)/numSteps. -/
def DissonanceCalc.stepSizeOf (nroot : ℚ → ℚ) (c : DissonanceCalc) : ℚ :=
  if c.logSteps then nroot (c.frequencyRange.stop / c.frequencyRange.start)
  else (c.frequencyRange.stop - c.frequencyRange.start) / (c.numSteps : ℚ)

/-- Source DissonanceCalc::setStepSize. -/
def DissonanceCalc.setStepSize (nroot : ℚ → ℚ) (c : DissonanceCalc) : DissonanceCalc :=
  { c with stepSize := c.stepSizeOf nroot }

/-- Source DissonanceCalc::incrementFrequency: multiplicative for
logarithmic stepping, additive otherwise. -/
def DissonanceCalc.incrementFrequency (c : DissonanceCalc) (frequency : ℚ) : ℚ :=
  if c.logSteps then frequency * c.stepSize else frequency + c.stepSize

/-- The frequency reached after i increments from the range start. -/
def gridFreq (c : DissonanceCalc) (i : ℕ) : ℚ :=
  (fun f => c.incrementFrequency f)^[i] c.frequencyRange.start

/-- One iteration of the 2D sweep (DissonanceCalc.cpp 399-413): evaluate at
the current state, store at index i, increment the frequency and write it to
the variable distribution's fundamental.  State: (currentFreq,
distributions, map2D). -/
def DissonanceCalc.map2DStep (R : Roughness) (c : DissonanceCalc)
    (st : ℚ × List OvertoneDistribution × List ℚ) (i : ℕ) :
    ℚ × List OvertoneDistribution × List ℚ :=
  let value := evalDissonance R c.preprocessors st.2.1
  let newMap := st.2.2.set i value
  let newFreq := c.incrementFrequency st.1
  (newFreq,
    updAt st.2.1 c.varDist fun d => d.setFundamentalFreq newFreq,
    newMap)

/-- One iteration of the 3D sweep's inner (y) loop (DissonanceCalc.cpp
425-439).  The evaluation result is discarded: the source writes it through
map3D[xStep], a by-value copy.  State: (currentXFreq, currentYFreq,
distributions). -/
def DissonanceCalc.map3DInnerStep (R : Roughness) (c : DissonanceCalc)
    (st2 : ℚ × ℚ × List OvertoneDistribution) (_yStep : ℕ) :
    ℚ × ℚ × List OvertoneDistribution :=
  let _value := evalDissonance R c.preprocessors st2.2.2
  let newYFreq := c.incrementFrequency st2.2.1
  (st2.1, newYFreq,
    updAt st2.2.2 c.yDist fun d => d.setFundamentalFreq newYFreq)

/-- One iteration of the 3D sweep's outer (x) loop (DissonanceCalc.cpp
423-447): run the inner loop, increment x and write it, then reset y to the
range start and write it. -/
def DissonanceCalc.map3DOuterStep (R : Roughness) (c : DissonanceCalc)
    (st : ℚ × ℚ × List OvertoneDistribution) (_xStep : ℕ) :
    ℚ × ℚ × List OvertoneDistribution :=
  let inner := (List.range c.numSteps).foldl (c.map3DInnerStep R) st
  let newXFreq := c.incrementFrequency inner.1
  (newXFreq, c.frequencyRange.start,
    updAt
      (updAt inner.2.2 c.xDist fun d => d.setFundamentalFreq newXFreq)
      c.yDist fun d => d.setFundamentalFreq c.frequencyRange.start)

/-- Source DissonanceCalc::calculateDissonanceMap (DissonanceCalc.cpp
389-449).  The 2D branch walks the variable distribution's fundamental
across the range, storing each evaluation in map2D; the 3D branch walks the
x- and y-axis distributions but its map3D writes land in a temporary copy
(juce::Array::operator[] returns by value), so only the frequency walking
is modelled as effectful.  Both branches mutate the canonical
distributions in place through setFundamentalFreq. -/
def DissonanceCalc.calculateDissonanceMap (R : Roughness) (c : DissonanceCalc) :
    DissonanceCalc :=
  if c.dimensionality = 2 then
    let res := (List.range c.numSteps).foldl (c.map2DStep R)
      (c.frequencyRange.start,
        updAt c.distributions c.varDist
          fun d => d.setFundamentalFreq c.frequencyRange.start,
        c.map2D)
    { c with distributions := res.2.1, map2D := res.2.2 }
  else if c.dimensionality = 3 then
    let res := (List.range c.numSteps).foldl (c.map3DOuterStep R)
      (c.frequencyRange.start, c.frequencyRange.start,
        updAt
          (updAt c.distributions c.xDist
            fun d => d.setFundamentalFreq c.frequencyRange.start)
          c.yDist fun d => d.setFundamentalFreq c.frequencyRange.start)
    { c with distributions := res.2.2 }
  else c

/- State-update algebra used by the sweep invariants. -/

lemma length_updAt (ds : List OvertoneDistribution) (i : ℕ)
    (f : OvertoneDistribution → OvertoneDistribution) :
    (updAt ds i f).length = ds.length :=
  List.length_set _ _ _

lemma dAt_updAt_self (ds : List OvertoneDistribution) (i : ℕ)
    (hi : i < ds.length) (f : OvertoneDistribution → OvertoneDistribution) :
    dAt (updAt ds i f) i = f (dAt ds i) := by
  unfold updAt dAt
  rw [List.getD_eq_getElem?_getD, List.getElem?_set_self hi, Option.getD_some]

lemma dAt_updAt_ne (ds : List OvertoneDistribution) {i j : ℕ} (hij : i ≠ j)
    (f : OvertoneDistribution → OvertoneDistribution) :
    dAt (updAt ds i f) j = dAt ds j := by
  unfold updAt dAt
  rw [List.getD_eq_getElem?_getD, List.getElem?_set_ne hij,
    ← List.getD_eq_getElem?_getD]

lemma updAt_updAt_self (ds : List OvertoneDistribution) (i : ℕ)
    (hi : i < ds.length) (f g : OvertoneDistribution → OvertoneDistribution) :
    updAt (updAt ds i f) i g = updAt ds i fun d => g (f d) := by
  unfold updAt
  rw [List.set_set]
  congr 2
  show dAt (updAt ds i f) i = f (dAt ds i)
  exact dAt_updAt_self ds i hi f

lemma updAt_comm (ds : List OvertoneDistribution) {i j : ℕ} (hij : i ≠ j)
    (f g : OvertoneDistribution → OvertoneDistribution) :
    updAt (updAt ds i f) j g = updAt (updAt ds j g) i f := by
  conv_lhs => rw [updAt, dAt_updAt_ne ds hij f]
  conv_rhs => rw [updAt, dAt_updAt_ne ds (Ne.symm hij) g]
  unfold updAt
  exact List.set_comm _ _ _ hij

lemma setFundamentalFreq_twice (d : OvertoneDistribution) (a b : ℚ) :
    (d.setFundamentalFreq a).setFundamentalFreq b = d.setFundamentalFreq b :=
  rfl

lemma gridFreq_zero (c : DissonanceCalc) : gridFreq c 0 = c.frequencyRange.start :=
  rfl

lemma gridFreq_succ (c : DissonanceCalc) (i : ℕ) :
    gridFreq c (i + 1) = c.incrementFrequency (gridFreq c i) :=
  Function.iterate_succ_apply' _ _ _

lemma gridFreq_linear (c : DissonanceCalc) (h : c.logSteps = false) (i : ℕ) :
    gridFreq c i = c.frequencyRange.start + i * c.stepSize := by
  induction i with
  | zero => simp [gridFreq_zero]
  | succ n ih =>
    rw [gridFreq_succ, ih]
    simp only [DissonanceCalc.incrementFrequency, h, Bool.false_eq_true, if_false]
    push_cast
    ring

lemma gridFreq_log (c : DissonanceCalc) (h : c.logSteps = true) (i : ℕ) :
    gridFreq c i = c.frequencyRange.start * c.stepSize ^ i := by
  induction i with
  | zero => simp [gridFreq_zero]
  | succ n ih =>
    rw [gridFreq_succ, ih]
    simp only [DissonanceCalc.incrementFrequency, h, if_true]
    rw [pow_succ]
    ring

lemma map2D_fold_state (R : Roughness) (c : DissonanceCalc)
    (hv : c.varDist < c.distributions.length) (k : ℕ) :
    ((List.range k).foldl (c.map2DStep R)
        (c.frequencyRange.start,
          updAt c.distributions c.varDist
            fun d => d.setFundamentalFreq c.frequencyRange.start,
          c.map2D)).1 = gridFreq c k ∧
    ((List.range k).foldl (c.map2DStep R)
        (c.frequencyRange.start,
          updAt c.distributions c.varDist
            fun d => d.setFundamentalFreq c.frequencyRange.start,
          c.map2D)).2.1 =
      updAt c.distributions c.varDist
        fun d => d.setFundamentalFreq (gridFreq c k) := by
  induction k with
  | zero => exact ⟨rfl, rfl⟩
  | succ n ih =>
    obtain ⟨h1, h2⟩ := ih
    rw [List.range_succ, List.foldl_append, List.foldl_cons, List.foldl_nil]
    simp only [DissonanceCalc.map2DStep]
    constructor
    · rw [h1, gridFreq_succ]
    · rw [h1, h2, gridFreq_succ, updAt_updAt_self _ _ hv]
      rfl

lemma map2D_fold_map (R : Roughness) (c : DissonanceCalc)
    (hv : c.varDist < c.distributions.length)
    (hmap : c.numSteps ≤ c.map2D.length) (k : ℕ) (hk : k ≤ c.numSteps) :
    ((List.range k).foldl (c.map2DStep R)
        (c.frequencyRange.start,
          updAt c.distributions c.varDist
            fun d => d.setFundamentalFreq c.frequencyRange.start,
          c.map2D)).2.2.length = c.map2D.length ∧
    ∀ i : ℕ,
      ((List.range k).foldl (c.map2DStep R)
        (c.frequencyRange.start,
          updAt c.distributions c.varDist
            fun d => d.setFundamentalFreq c.frequencyRange.start,
          c.map2D)).2.2.getD i 0 =
      if i < k then
        evalDissonance R c.preprocessors
          (updAt c.distributions c.varDist
            fun d => d.setFundamentalFreq (gridFreq c i))
      else c.map2D.getD i 0 := by
  induction k with
  | zero =>
    refine ⟨rfl, fun i => ?_⟩
    rw [if_neg (Nat.not_lt_zero i)]
    rfl
  | succ n ih =>
    obtain ⟨hlen, hget⟩ := ih (Nat.le_of_succ_le hk)
    have hstate := map2D_fold_state R c hv n
    rw [List.range_succ, List.foldl_append, List.foldl_cons, List.foldl_nil]
    simp only [DissonanceCalc.map2DStep]
    constructor
    · rw [List.length_set]
      exact hlen
    · intro i
      have hval : evalDissonance R c.preprocessors
          (((List.range n).foldl (c.map2DStep R)
            (c.frequencyRange.start,
              updAt c.distributions c.varDist
                fun d => d.setFundamentalFreq c.frequencyRange.start,
              c.map2D)).2.1) =
          evalDissonance R c.preprocessors
            (updAt c.distributions c.varDist
              fun d => d.setFundamentalFreq (gridFreq c n)) := by
        rw [hstate.2]
      by_cases hin : n = i
      · subst hin
        rw [List.getD_eq_getElem?_getD, List.getElem?_set_self
          (by rw [hlen]; exact Nat.lt_of_lt_of_le (Nat.lt_of_succ_le hk) hmap),
          Option.getD_some, hval, if_pos (Nat.lt_succ_self n)]
      · rw [List.getD_eq_getElem?_getD, List.getElem?_set_ne hin,
          ← List.getD_eq_getElem?_getD, hget i]
        by_cases hlt : i < n
        · rw [if_pos hlt, if_pos (Nat.lt_succ_of_lt hlt)]
        · rw [if_neg hlt, if_neg (by omega)]

/-- C5: in a 2D sweep under a valid configuration (dimensionality 2, the
variable index in bounds, the map buffer sized by resizeMap, the step size
as computed by setStepSize), the stored value at every step i is a direct
single evaluation — fresh working copies, the preprocessor chain, the model
without accumulation — with the variable distribution's fundamental set to
start + i*step (linear) or start*step^i (logarithmic), where step is
(end-start)/numSteps resp. the numSteps-th root of end/start; step 0
evaluates at start. -/
theorem map2D_value_at_step (R : Roughness) (nroot : ℚ → ℚ)
    (c : DissonanceCalc) (i : ℕ) (h2 : c.dimensionality = 2)
    (hv : c.varDist < c.distributions.length) (hi : i < c.numSteps)
    (hmap : c.numSteps ≤ c.map2D.length)
    (hsz : c.stepSize = c.stepSizeOf nroot) :
    ((c.calculateDissonanceMap R).map2D).getD i 0 =
      evalDissonance R c.preprocessors
        (updAt c.distributions c.varDist fun d =>
          d.setFundamentalFreq
            (if c.logSteps then
              c.frequencyRange.start * (c.stepSizeOf nroot) ^ i
            else c.frequencyRange.start + i * c.stepSizeOf nroot)) := by
  unfold DissonanceCalc.calculateDissonanceMap
  rw [if_pos h2]
  show ((List.range c.numSteps).foldl (c.map2DStep R) _).2.2.getD i 0 = _
  rw [(map2D_fold_map R c hv hmap c.numSteps (Nat.le_refl _)).2 i, if_pos hi]
  congr 2
  cases hlog : c.logSteps with
  | false =>
    rw [if_neg Bool.false_ne_true, gridFreq_linear c hlog, hsz]
  | true =>
    rw [if_pos rfl, gridFreq_log c hlog, hsz]

/-- Concrete 2D sweep configuration for the C5 witness: two distributions
(fundamentals 100 and 200 Hz, amplitude 1, no partials), range [100, 200),
2 linear steps of size 50, no preprocessors, map buffer sized 2. -/
def c5Calc : DissonanceCalc :=
  { distributions :=
      [{ fundamental := { freq := 100, amp := 1 } },
       { fundamental := { freq := 200, amp := 1 } }],
    frequencyRange := { start := 100, stop := 200 },
    stepSize := 50,
    numSteps := 2,
    map2D := [0, 0] }

/-- Witness for the C5 theorem at a concrete configuration, step 1. -/
theorem map2D_value_at_step_witness :
    ((c5Calc.calculateDissonanceMap c2R).map2D).getD 1 0 =
      evalDissonance c2R c5Calc.preprocessors
        (updAt c5Calc.distributions c5Calc.varDist fun d =>
          d.setFundamentalFreq
            (if c5Calc.logSteps then
              c5Calc.frequencyRange.start * (c5Calc.stepSizeOf id) ^ 1
            else c5Calc.frequencyRange.start + 1 * c5Calc.stepSizeOf id)) :=
  map2D_value_at_step c2R id c5Calc 1 rfl (by decide) (by decide) (by decide)
    (by norm_num [c5Calc, DissonanceCalc.stepSizeOf])

lemma map3D_inner_fold (R : Roughness) (c : DissonanceCalc)
    (W : List OvertoneDistribution) (hy : c.yDist < W.length) (x y0 : ℚ)
    (m : ℕ) :
    (List.range m).foldl (c.map3DInnerStep R)
      (x, y0, updAt W c.yDist fun d => d.setFundamentalFreq y0) =
    (x, (fun f => c.incrementFrequency f)^[m] y0,
      updAt W c.yDist fun d =>
        d.setFundamentalFreq ((fun f => c.incrementFrequency f)^[m] y0)) := by
  induction m with
  | zero => rfl
  | succ n ih =>
    rw [List.range_succ, List.foldl_append, List.foldl_cons, List.foldl_nil, ih]
    simp only [DissonanceCalc.map3DInnerStep]
    rw [Function.iterate_succ_apply']
    rw [updAt_updAt_self _ _ hy]
    rfl

lemma map3D_outer_fold (R : Roughness) (c : DissonanceCalc)
    (hx : c.xDist < c.distributions.length)
    (hy : c.yDist < c.distributions.length) (hxy : c.xDist ≠ c.yDist)
    (m : ℕ) :
    (List.range m).foldl (c.map3DOuterStep R)
      (c.frequencyRange.start, c.frequencyRange.start,
        updAt
          (updAt c.distributions c.xDist
            fun d => d.setFundamentalFreq c.frequencyRange.start)
          c.yDist fun d => d.setFundamentalFreq c.frequencyRange.start) =
    (gridFreq c m, c.frequencyRange.start,
      updAt
        (updAt c.distributions c.xDist
          fun d => d.setFundamentalFreq (gridFreq c m))
        c.yDist fun d => d.setFundamentalFreq c.frequencyRange.start) := by
  induction m with
  | zero => rfl
  | succ n ih =>
    rw [List.range_succ, List.foldl_append, List.foldl_cons, List.foldl_nil, ih]
    simp only [DissonanceCalc.map3DOuterStep]
    rw [map3D_inner_fold R c
      (updAt c.distributions c.xDist
        fun d => d.setFundamentalFreq (gridFreq c n))
      (by rw [length_updAt]; exact hy) (gridFreq c n)
      c.frequencyRange.start c.numSteps]
    rw [← gridFreq_succ]
    rw [updAt_comm _ (Ne.symm hxy)]
    rw [updAt_updAt_self _ _ hx]
    rw [updAt_updAt_self _ _ (by rw [length_updAt]; exact hy)]
    rfl

/-- C10: calculateDissonanceMap mutates the calculator's canonical
distributions in place.  In 2D the variable distribution's fundamental is
left one increment past the last grid point (gridFreq numSteps, where
gridFreq (numSteps-1) is the last grid point); in 3D the x-axis fundamental
is left one increment past the last grid point and the y-axis fundamental at
the range start.  The equality to an updAt/setFundamentalFreq image states
at once that every other field of every distribution is unchanged. -/
theorem map_mutates_canonical_distributions (R : Roughness)
    (c : DissonanceCalc) (hn : 1 ≤ c.numSteps) :
    (c.dimensionality = 2 → c.varDist < c.distributions.length →
      (c.calculateDissonanceMap R).distributions =
        updAt c.distributions c.varDist
          (fun d => d.setFundamentalFreq (gridFreq c c.numSteps)) ∧
      gridFreq c c.numSteps =
        c.incrementFrequency (gridFreq c (c.numSteps - 1))) ∧
    (c.dimensionality = 3 → c.xDist < c.distributions.length →
      c.yDist < c.distributions.length → c.xDist ≠ c.yDist →
      (c.calculateDissonanceMap R).distributions =
        updAt
          (updAt c.distributions c.xDist
            (fun d => d.setFundamentalFreq (gridFreq c c.numSteps)))
          c.yDist (fun d => d.setFundamentalFreq c.frequencyRange.start)) := by
  constructor
  · intro h2 hv
    constructor
    · unfold DissonanceCalc.calculateDissonanceMap
      rw [if_pos h2]
      exact (map2D_fold_state R c hv c.numSteps).2
    · have h := gridFreq_succ c (c.numSteps - 1)
      rw [Nat.sub_add_cancel hn] at h
      exact h
  · intro h3 hx hy hxy
    unfold DissonanceCalc.calculateDissonanceMap
    rw [if_neg (by omega), if_pos h3]
    rw [map3D_outer_fold R c hx hy hxy c.numSteps]

/-- Concrete configuration for the C10 witness. -/
def c10Calc : DissonanceCalc :=
  { distributions :=
      [{ fundamental := { freq := 100, amp := 1 } },
       { fundamental := { freq := 200, amp := 1 } }],
    frequencyRange := { start := 100, stop := 200 },
    stepSize := 50,
    numSteps := 2,
    map2D := [0, 0] }

/-- Witness for the C10 theorem at a concrete configuration. -/
theorem map_mutates_canonical_distributions_witness :
    (c10Calc.dimensionality = 2 → c10Calc.varDist < c10Calc.distributions.length →
      (c10Calc.calculateDissonanceMap c2R).distributions =
        updAt c10Calc.distributions c10Calc.varDist
          (fun d => d.setFundamentalFreq (gridFreq c10Calc c10Calc.numSteps)) ∧
      gridFreq c10Calc c10Calc.numSteps =
        c10Calc.incrementFrequency (gridFreq c10Calc (c10Calc.numSteps - 1))) ∧
    (c10Calc.dimensionality = 3 → c10Calc.xDist < c10Calc.distributions.length →
      c10Calc.yDist < c10Calc.distributions.length → c10Calc.xDist ≠ c10Calc.yDist →
      (c10Calc.calculateDissonanceMap c2R).distributions =
        updAt
          (updAt c10Calc.distributions c10Calc.xDist
            (fun d => d.setFundamentalFreq (gridFreq c10Calc c10Calc.numSteps)))
          c10Calc.yDist
          (fun d => d.setFundamentalFreq c10Calc.frequencyRange.start)) :=
  map_mutates_canonical_distributions c2R c10Calc (by decide)

/-!
Claim C6: the deduplication of optimize2D (DissonanceCalc.cpp 463-526).
The external NLopt local optimizer is a black box (spec sections 1 and 6),
so a run is modelled by the list of refined results it returns — one
(frequency, dissonance) pair per 1.0008-multiplicative seed.  The
insertion/deduplication logic operating on those results is embedded
exactly, including the single direction-blind comparison
dissValues[index] < dissValues[i] on line 512.
-/

/-- juce Array::indexOf restricted to the present case (the element was just
inserted, so it occurs): index of the first exact match. -/
def indexOfQ (x : ℚ) : List ℚ → ℕ
  | [] => 0
  | y :: rest => if y = x then 0 else indexOfQ x rest + 1

/-- The for loop of DissonanceCalc.cpp 507-523: i walks the value list,
comparing every entry other than index against the tooClose band; the entry
with the larger stored dissonance is removed (regardless of the search
direction), and i advances each iteration even after a removal, while index
is never recomputed. -/
def dedupScan (tc : RangeQ) (index : ℕ) (i : ℕ) (ov dv : List ℚ) :
    List ℚ × List ℚ :=
  if h : i < ov.length then
    if i ≠ index ∧ tc.containsQ (ov.getD i 0) then
      if dv.getD index 0 < dv.getD i 0 then
        dedupScan tc index (i + 1) (ov.eraseIdx i) (dv.eraseIdx i)
      else
        dedupScan tc index (i + 1) (ov.eraseIdx index) (dv.eraseIdx index)
    else
      dedupScan tc index (i + 1) ov dv
  else (ov, dv)
termination_by ov.length - i
decreasing_by
  · rw [List.length_eraseIdx]
    split <;> omega
  · rw [List.length_eraseIdx]
    split <;> omega
  · omega

/-- One refined result processed (DissonanceCalc.cpp 495-524): skip exact
duplicates; otherwise set the tooClose band to [x/1.001, x*1.001) (the
Range object is reused across iterations, so it is threaded through the
state), insert x in sorted order, insert its dissonance at the same index,
and run the removal loop. -/
def optimize2DStep (st : RangeQ × List ℚ × List ℚ) (r : ℚ × ℚ) :
    RangeQ × List ℚ × List ℚ :=
  if r.1 ∈ st.2.1 then st
  else
    let tc := RangeQ.setEnd (RangeQ.setStart st.1 (r.1 / 1.001)) (r.1 * 1.001)
    let ov := List.orderedInsert (fun a b => a ≤ b) r.1 st.2.1
    let index := indexOfQ r.1 ov
    let dv := st.2.2.insertIdx index r.2
    (tc, dedupScan tc index 0 ov dv)

/-- Source DissonanceCalc::optimize2D, on the refined results of a run: the
chosen list is cleared, then every result is inserted and deduplicated; the
local dissValues array is discarded at the end, only the frequencies are
stored (in minima when minimizing, in maxima otherwise). -/
def DissonanceCalc.optimize2D (c : DissonanceCalc) (minimize : Bool)
    (results : List (ℚ × ℚ)) : DissonanceCalc :=
  let out := (results.foldl optimize2DStep ({}, [], [])).2
  if minimize then { c with minima := out.1 } else { c with maxima := out.1 }

/-- C6 failing input evaluated: maximizing over two refined results 10000
(dissonance 3) and 10005 (dissonance 7), whose frequencies lie within the
0.1 percent tolerance of each other, the dedup keeps 10000 — the
lower-dissonance entry, i.e. the worse-scoring one for a maxima search —
because line 512 compares with < regardless of the optimization direction.
The claim demands that only the better-scoring entry for the search's
direction be kept (here 10005). -/
theorem optimize2D_keeps_worse_entry_when_maximizing :
    (DissonanceCalc.optimize2D {} false [(10000, 3), (10005, 7)]).maxima =
      [10000] ∧
    (3 : ℚ) < 7 ∧
    (10000 : ℚ) < 10005 ∧ (10005 : ℚ) < 10000 * 1.001 := by
  refine ⟨?_, by norm_num, by norm_num, by norm_num⟩
  norm_num [DissonanceCalc.optimize2D, optimize2DStep, indexOfQ,
    RangeQ.setStart, RangeQ.setEnd, List.orderedInsert, List.insertIdx]
  rw [dedupScan.eq_def]
  norm_num [RangeQ.containsQ, indexOfQ, List.eraseIdx]
  rw [dedupScan.eq_def]
  norm_num [RangeQ.containsQ, indexOfQ, List.eraseIdx]
  rw [dedupScan.eq_def]
  norm_num [RangeQ.containsQ, indexOfQ, List.eraseIdx]
  rw [dedupScan.eq_def]
  norm_num [RangeQ.containsQ, indexOfQ, List.eraseIdx]

end DisMAL
